import Mathlib

/-!
Verification of the LAN chat/media relay server (server.py).

The server's shared chat state is the dictionary chat_clients
(username -> connection + presence status) together with the
current_presenter_username slot.  We embed the registry as an association
list in insertion order (Python dicts preserve insertion order), identify
each connection with its (unique) username, and model every message send
as a pair (recipient username, payload string).
-/

/-- Association list of registered chat sessions: username ↦ presence status,
in registration (insertion) order, mirroring the Python dict `chat_clients`. -/
abbrev Clients := List (String × String)

/-- Python `chat_clients.get(name)` / `name in chat_clients`: status of the
first (only) binding of `name`, if any. -/
def lookupStatus : Clients → String → Option String
  | [], _ => none
  | e :: rest, name => if e.1 = name then some e.2 else lookupStatus rest name

/-- server.py `broadcast_chat` (lines 103-117): sends `payload` to every
registered session except the one identified by `exclude` (`exclude = none`
models passing `None` as the sender connection, i.e. send to everyone). -/
def broadcastChat (clients : Clients) (payload : String) (exclude : Option String) :
    List (String × String) :=
  clients.filterMap fun e => if some e.1 = exclude then none else some (e.1, payload)

/-- Shared chat-server state: the session registry `chat_clients` plus
`current_presenter_username` (server.py lines 90-92). -/
structure ChatState where
  clients : Clients
  presenter : Option String
deriving DecidableEq

/-- server.py `get_user_list_string` (lines 94-101). -/
def userListString (clients : Clients) : String :=
  if clients.isEmpty then "USER_LIST:"
  else "USER_LIST:" ++ String.intercalate "," (clients.map fun e => e.1 ++ "=" ++ e.2)

/-- Chat handshake, server.py lines 126-165.  `raw` is the received username
byte string (decoded); an empty `recv` means the peer closed, and the handler
returns silently before the username/duplicate check (lines 127-129).
Returns the new state and the messages sent, as (recipient, payload) pairs. -/
def handshake (st : ChatState) (raw : String) : ChatState × List (String × String) :=
  if raw = "" then (st, [])
  else if raw = "" ∨ lookupStatus st.clients raw ≠ none then
    (st, [(raw, "ERROR:USERNAME_TAKEN")])
  else
    ({ st with clients := st.clients ++ [(raw, "Online")] },
      [(raw, "OK"), (raw, userListString (st.clients ++ [(raw, "Online")]))]
        ++ broadcastChat (st.clients ++ [(raw, "Online")])
            ("USER_JOIN:" ++ raw ++ "=Online") (some raw)
        ++ (match st.presenter with
            | some p => [(raw, "SCREEN_START:" ++ p)]
            | none => []))

/-- The dict mutation `chat_clients[username]['status'] = new_status` guarded by
`if username in chat_clients` (server.py lines 182-184). -/
def updateStatus (clients : Clients) (sender newStatus : String) : Clients :=
  clients.map fun e => if e.1 = sender then (e.1, newStatus) else e

/-- `SET_STATUS:<status>` handling, server.py lines 177-186.  `rawStatus` is the
part after the first colon.  Statuses outside Online/Away are coerced to
Online; the STATUS_UPDATE broadcast is sent unconditionally. -/
def setStatus (st : ChatState) (sender rawStatus : String) :
    ChatState × List (String × String) :=
  let newStatus := if rawStatus = "Online" ∨ rawStatus = "Away" then rawStatus else "Online"
  ({ st with clients := updateStatus st.clients sender newStatus },
    broadcastChat (updateStatus st.clients sender newStatus)
      ("STATUS_UPDATE:" ++ sender ++ "=" ++ newStatus) (some sender))

/-- `REQUEST_TO_PRESENT` handling, server.py lines 211-231. -/
def requestToPresent (st : ChatState) (sender : String) :
    ChatState × List (String × String) :=
  match st.presenter with
  | none =>
    ({ st with presenter := some sender },
      (sender, "OK_TO_PRESENT")
        :: broadcastChat st.clients ("SCREEN_START:" ++ sender) (some sender))
  | some p =>
    match lookupStatus st.clients p with
    | some _ => (st, [(p, "PRESENT_REQUEST_FROM:" ++ sender)])
    | none =>
      ({ st with presenter := some sender },
        (sender, "OK_TO_PRESENT")
          :: broadcastChat st.clients ("SCREEN_START:" ++ sender) (some sender))

/-- `PRESENT_RESPONSE:<response>:<requester>` handling, server.py lines 234-266.
The staleness guard (line 242) runs first, then the requester liveness check
(lines 246-249); any response other than "Yes" is treated as a denial. -/
def presentResponse (st : ChatState) (sender response requester : String) :
    ChatState × List (String × String) :=
  if st.presenter ≠ some sender then (st, [])
  else
    match lookupStatus st.clients requester with
    | none => (st, [])
    | some _ =>
      if response = "Yes" then
        ({ st with presenter := some requester },
          [(requester, "OK_TO_PRESENT"), (sender, "SCREEN_STOP_REQUESTED")]
            ++ broadcastChat st.clients ("SCREEN_START:" ++ requester) (some requester))
      else (st, [(requester, "PRESENT_REQUEST_DENIED")])

/-- `STOP_SHARING` handling, server.py lines 269-276. -/
def stopSharing (st : ChatState) (sender : String) : ChatState × List (String × String) :=
  if st.presenter = some sender then
    ({ st with presenter := none }, broadcastChat st.clients "SCREEN_STOP" none)
  else (st, [])

/-- Connection teardown, server.py lines 289-308 (the `finally` block for a
connection whose username was set): delete the registry entry if present,
clear the presenter slot if this user held it, then broadcast USER_LEAVE
and/or SCREEN_STOP to the remaining sessions. -/
def teardown (st : ChatState) (sender : String) : ChatState × List (String × String) :=
  let clients := st.clients.filter fun e => decide (e.1 ≠ sender)
  ({ clients := clients,
     presenter := if st.presenter = some sender then none else st.presenter },
    (if lookupStatus st.clients sender ≠ none then
        broadcastChat clients ("USER_LEAVE:" ++ sender) none
      else [])
      ++ (if st.presenter = some sender then broadcastChat clients "SCREEN_STOP" none
          else []))

/-- One chat-protocol operation against the shared state. -/
inductive ChatOp where
  | join (raw : String)
  | status (sender rawStatus : String)
  | present (sender : String)
  | response (sender resp requester : String)
  | stop (sender : String)
  | leave (sender : String)
deriving DecidableEq

/-- Dispatch of one operation, tying the per-command handlers together. -/
def chatStep (st : ChatState) : ChatOp → ChatState × List (String × String)
  | .join raw => handshake st raw
  | .status sender s => setStatus st sender s
  | .present sender => requestToPresent st sender
  | .response sender r q => presentResponse st sender r q
  | .stop sender => stopSharing st sender
  | .leave sender => teardown st sender

/-- Commands are only ever read from a connection whose handshake succeeded and
whose teardown has not yet run, so their sender is a registered session;
join and leave themselves carry no such precondition. -/
def opFromLiveSession (st : ChatState) : ChatOp → Prop
  | .join _ => True
  | .status sender _ => lookupStatus st.clients sender ≠ none
  | .present sender => lookupStatus st.clients sender ≠ none
  | .response sender _ _ => lookupStatus st.clients sender ≠ none
  | .stop sender => lookupStatus st.clients sender ≠ none
  | .leave _ => True

/-- The spec's Presenter Slot invariant: a non-empty slot names a currently
registered session. -/
def presenterRegistered (st : ChatState) : Prop :=
  ∀ p, st.presenter = some p → lookupStatus st.clients p ≠ none

/-- Folding a sequence of operations from the empty server state. -/
def applyChatOps (ops : List ChatOp) : ChatState :=
  ops.foldl (fun st op => (chatStep st op).1) ⟨[], none⟩

theorem lookupStatus_ne_none_iff {l : Clients} {n : String} :
    lookupStatus l n ≠ none ↔ ∃ s, (n, s) ∈ l := by
  induction l with
  | nil => simp [lookupStatus]
  | cons e rest ih =>
    by_cases h : e.1 = n
    · subst h
      simp [lookupStatus]
      exact ⟨e.2, Or.inl rfl⟩
    · simp only [lookupStatus, if_neg h, List.mem_cons, ih]
      constructor
      · rintro ⟨s, hs⟩
        exact ⟨s, Or.inr hs⟩
      · rintro ⟨s, hs | hs⟩
        · exact absurd (congrArg Prod.fst hs).symm h
        · exact ⟨s, hs⟩

theorem mem_broadcastChat {clients : Clients} {payload : String} {exclude : Option String}
    {v m : String} :
    (v, m) ∈ broadcastChat clients payload exclude ↔
      m = payload ∧ (∃ s, (v, s) ∈ clients) ∧ some v ≠ exclude := by
  simp only [broadcastChat, List.mem_filterMap]
  constructor
  · rintro ⟨e, he, hfe⟩
    by_cases hex : some e.1 = exclude
    · simp [hex] at hfe
    · simp only [if_neg hex, Option.some.injEq, Prod.mk.injEq] at hfe
      refine ⟨hfe.2.symm, ⟨e.2, ?_⟩, ?_⟩
      · rw [← hfe.1]; exact he
      · rw [← hfe.1]; exact hex
  · rintro ⟨hm, ⟨s, hs⟩, hex⟩
    exact ⟨(v, s), hs, by simp [hex, hm]⟩

theorem lookupStatus_append_ne_none {l m : Clients} {n : String}
    (h : lookupStatus l n ≠ none) : lookupStatus (l ++ m) n ≠ none := by
  rw [lookupStatus_ne_none_iff] at h ⊢
  obtain ⟨s, hs⟩ := h
  exact ⟨s, List.mem_append_left m hs⟩

theorem lookupStatus_updateStatus_ne_none {l : Clients} {sender ns n : String}
    (h : lookupStatus l n ≠ none) : lookupStatus (updateStatus l sender ns) n ≠ none := by
  rw [lookupStatus_ne_none_iff] at h ⊢
  obtain ⟨s, hs⟩ := h
  by_cases hn : n = sender
  · refine ⟨ns, ?_⟩
    have : (fun e : String × String => if e.1 = sender then (e.1, ns) else e) (n, s)
        = (n, ns) := by simp [hn]
    rw [updateStatus, ← this]
    exact List.mem_map_of_mem _ hs
  · refine ⟨s, ?_⟩
    have : (fun e : String × String => if e.1 = sender then (e.1, ns) else e) (n, s)
        = (n, s) := by simp [hn]
    rw [updateStatus, ← this]
    exact List.mem_map_of_mem _ hs

theorem lookupStatus_filter_ne_none {l : Clients} {sender n : String}
    (hne : n ≠ sender) (h : lookupStatus l n ≠ none) :
    lookupStatus (l.filter fun e => decide (e.1 ≠ sender)) n ≠ none := by
  rw [lookupStatus_ne_none_iff] at h ⊢
  obtain ⟨s, hs⟩ := h
  exact ⟨s, List.mem_filter.mpr ⟨hs, by simpa using hne⟩⟩

theorem ne_append_of_getElem (a b : String) (i : Nat) (hi : i < b.data.length)
    (h : a.data[i]? ≠ b.data[i]?) (u : String) : a ≠ b ++ u := by
  intro he
  apply h
  have hd : a.data = b.data ++ u.data := by rw [he]; exact String.data_append b u
  rw [hd, List.getElem?_append, if_pos hi]

/-- C1: for a chat session U sending REQUEST_TO_PRESENT: with an empty presenter
slot, the slot becomes U, U gets OK_TO_PRESENT and SCREEN_START:U goes to every
other registered session (never to U); with a slot held by a still-registered P,
only PRESENT_REQUEST_FROM:U is sent to P and the state is unchanged; with a slot
held by an unregistered P, the request is granted to U as in the empty case. -/
theorem requestToPresent_arbitration (st : ChatState) (U : String)
    (hU : lookupStatus st.clients U ≠ none) :
    (st.presenter = none →
      (requestToPresent st U).1 = ⟨st.clients, some U⟩ ∧
      (U, "OK_TO_PRESENT") ∈ (requestToPresent st U).2 ∧
      (∀ v, lookupStatus st.clients v ≠ none → v ≠ U →
        (v, "SCREEN_START:" ++ U) ∈ (requestToPresent st U).2) ∧
      (∀ v, (v, "SCREEN_START:" ++ U) ∈ (requestToPresent st U).2 → v ≠ U)) ∧
    (∀ P, st.presenter = some P → lookupStatus st.clients P ≠ none →
      requestToPresent st U = (st, [(P, "PRESENT_REQUEST_FROM:" ++ U)])) ∧
    (∀ P, st.presenter = some P → lookupStatus st.clients P = none →
      (requestToPresent st U).1 = ⟨st.clients, some U⟩ ∧
      (U, "OK_TO_PRESENT") ∈ (requestToPresent st U).2 ∧
      (∀ v, lookupStatus st.clients v ≠ none → v ≠ U →
        (v, "SCREEN_START:" ++ U) ∈ (requestToPresent st U).2) ∧
      (∀ v, (v, "SCREEN_START:" ++ U) ∈ (requestToPresent st U).2 → v ≠ U)) := by
  have hne : ∀ u : String, "OK_TO_PRESENT" ≠ "SCREEN_START:" ++ u := fun u =>
    ne_append_of_getElem _ _ 0 (by decide) (by decide) u
  have grant : (st.presenter = none ∨
      ∃ P, st.presenter = some P ∧ lookupStatus st.clients P = none) →
      requestToPresent st U = (⟨st.clients, some U⟩,
        (U, "OK_TO_PRESENT")
          :: broadcastChat st.clients ("SCREEN_START:" ++ U) (some U)) := by
    rintro (h0 | ⟨P, hP, hlP⟩)
    · simp [requestToPresent, h0]
    · simp [requestToPresent, hP, hlP]
  have grantProps : requestToPresent st U = (⟨st.clients, some U⟩,
        (U, "OK_TO_PRESENT")
          :: broadcastChat st.clients ("SCREEN_START:" ++ U) (some U)) →
      (requestToPresent st U).1 = ⟨st.clients, some U⟩ ∧
      (U, "OK_TO_PRESENT") ∈ (requestToPresent st U).2 ∧
      (∀ v, lookupStatus st.clients v ≠ none → v ≠ U →
        (v, "SCREEN_START:" ++ U) ∈ (requestToPresent st U).2) ∧
      (∀ v, (v, "SCREEN_START:" ++ U) ∈ (requestToPresent st U).2 → v ≠ U) := by
    intro heq
    rw [heq]
    refine ⟨rfl, List.mem_cons_self _ _, ?_, ?_⟩
    · intro v hv hvU
      exact List.mem_cons_of_mem _ (mem_broadcastChat.mpr
        ⟨rfl, lookupStatus_ne_none_iff.mp hv, by simpa using hvU⟩)
    · intro v hv
      rcases List.mem_cons.mp hv with h | h
      · exact absurd (congrArg Prod.snd h) (by simpa using (hne U).symm)
      · have := (mem_broadcastChat.mp h).2.2
        simpa using this
  refine ⟨fun h0 => grantProps (grant (Or.inl h0)), ?_, ?_⟩
  · intro P hP hlP
    obtain ⟨s, hs⟩ := Option.ne_none_iff_exists'.mp hlP
    simp [requestToPresent, hP, hs]
  · intro P hP hlP
    exact grantProps (grant (Or.inr ⟨P, hP, hlP⟩))

/-- C1 witness: in a two-user state with an empty slot, alice's request makes
alice the presenter. -/
theorem requestToPresent_arbitration_witness :
    (requestToPresent ⟨[("alice", "Online"), ("bob", "Online")], none⟩ "alice").1 =
      ⟨[("alice", "Online"), ("bob", "Online")], some "alice"⟩ :=
  ((requestToPresent_arbitration ⟨[("alice", "Online"), ("bob", "Online")], none⟩ "alice"
      (by decide)).1 rfl).1

/-- C2: a PRESENT_RESPONSE from P about a still-registered requester U is
ignored unless P is the current presenter; a Yes response hands the slot to U,
sends OK_TO_PRESENT to U and SCREEN_STOP_REQUESTED to P, and broadcasts
SCREEN_START:U to every registered session except U; a No response only sends
PRESENT_REQUEST_DENIED to U, leaving the state unchanged. -/
theorem presentResponse_spec (st : ChatState) (P resp U : String)
    (hU : lookupStatus st.clients U ≠ none) :
    (st.presenter ≠ some P → presentResponse st P resp U = (st, [])) ∧
    (st.presenter = some P → resp = "Yes" →
      (presentResponse st P resp U).1 = ⟨st.clients, some U⟩ ∧
      (U, "OK_TO_PRESENT") ∈ (presentResponse st P resp U).2 ∧
      (P, "SCREEN_STOP_REQUESTED") ∈ (presentResponse st P resp U).2 ∧
      (∀ v, lookupStatus st.clients v ≠ none → v ≠ U →
        (v, "SCREEN_START:" ++ U) ∈ (presentResponse st P resp U).2) ∧
      (∀ v, (v, "SCREEN_START:" ++ U) ∈ (presentResponse st P resp U).2 → v ≠ U)) ∧
    (st.presenter = some P → resp = "No" →
      presentResponse st P resp U = (st, [(U, "PRESENT_REQUEST_DENIED")])) := by
  obtain ⟨s, hs⟩ := Option.ne_none_iff_exists'.mp hU
  refine ⟨fun hne => by simp [presentResponse, hne], ?_, ?_⟩
  · intro hP hyes
    subst hyes
    have heq : presentResponse st P "Yes" U = (⟨st.clients, some U⟩,
        [(U, "OK_TO_PRESENT"), (P, "SCREEN_STOP_REQUESTED")]
          ++ broadcastChat st.clients ("SCREEN_START:" ++ U) (some U)) := by
      simp [presentResponse, hP, hs]
    rw [heq]
    refine ⟨rfl, by simp, by simp, ?_, ?_⟩
    · intro v hv hvU
      exact List.mem_append_right _ (mem_broadcastChat.mpr
        ⟨rfl, lookupStatus_ne_none_iff.mp hv, by simpa using hvU⟩)
    · intro v hv
      rcases List.mem_append.mp hv with h | h
      · rcases List.mem_cons.mp h with h | h
        · exact absurd (congrArg Prod.snd h)
            (by simpa using (ne_append_of_getElem "OK_TO_PRESENT" "SCREEN_START:" 0
              (by decide) (by decide) U).symm)
        · rcases List.mem_cons.mp h with h | h
          · exact absurd (congrArg Prod.snd h)
              (by simpa using (ne_append_of_getElem "SCREEN_STOP_REQUESTED" "SCREEN_START:" 9
                (by decide) (by decide) U).symm)
          · simp at h
      · have := (mem_broadcastChat.mp h).2.2
        simpa using this
  · intro hP hno
    subst hno
    simp [presentResponse, hP, hs]

/-- C2 witness: alice (presenter) answers Yes to bob's request, so the slot
moves to bob. -/
theorem presentResponse_spec_witness :
    (presentResponse ⟨[("alice", "Online"), ("bob", "Online")], some "alice"⟩
        "alice" "Yes" "bob").1 =
      ⟨[("alice", "Online"), ("bob", "Online")], some "bob"⟩ :=
  ((presentResponse_spec ⟨[("alice", "Online"), ("bob", "Online")], some "alice"⟩
      "alice" "Yes" "bob" (by decide)).2.1 rfl rfl).1

/-- C10: a PRESENT_RESPONSE from the current presenter naming a requester who
is no longer registered is ignored: no message is sent and the state is
unchanged. -/
theorem presentResponse_staleRequester (st : ChatState) (P resp U : String)
    (hP : st.presenter = some P) (hU : lookupStatus st.clients U = none) :
    presentResponse st P resp U = (st, []) := by
  simp [presentResponse, hP, hU]

/-- C10 witness: alice is the presenter, bob has unregistered; her Yes response
about bob changes nothing and sends nothing. -/
theorem presentResponse_staleRequester_witness :
    presentResponse ⟨[("alice", "Online")], some "alice"⟩ "alice" "Yes" "bob" =
      (⟨[("alice", "Online")], some "alice"⟩, []) :=
  presentResponse_staleRequester ⟨[("alice", "Online")], some "alice"⟩ "alice" "Yes" "bob"
    rfl (by decide)

/-- C4: every chat operation (handshake, SET_STATUS, REQUEST_TO_PRESENT,
PRESENT_RESPONSE, STOP_SHARING, teardown), when its sender is a live session,
preserves the invariant that a non-empty presenter slot names a currently
registered session. -/
theorem chatStep_preserves_presenterRegistered (st : ChatState) (op : ChatOp)
    (hinv : presenterRegistered st) (hop : opFromLiveSession st op) :
    presenterRegistered ((chatStep st op).1) := by
  cases op with
  | join raw =>
    by_cases h1 : raw = ""
    · have hstep : (chatStep st (ChatOp.join raw)).1 = st := by
        simp only [chatStep, handshake, if_pos h1]
      rw [hstep]; exact hinv
    · by_cases h2 : raw = "" ∨ lookupStatus st.clients raw ≠ none
      · have hstep : (chatStep st (ChatOp.join raw)).1 = st := by
          simp only [chatStep, handshake, if_neg h1, if_pos h2]
        rw [hstep]; exact hinv
      · have hstep : (chatStep st (ChatOp.join raw)).1 =
            { st with clients := st.clients ++ [(raw, "Online")] } := by
          simp only [chatStep, handshake, if_neg h1, if_neg h2]
        rw [hstep]
        intro p hp
        exact lookupStatus_append_ne_none (hinv p hp)
  | status sender s =>
    intro p hp
    exact lookupStatus_updateStatus_ne_none (hinv p hp)
  | present sender =>
    cases hpre : st.presenter with
    | none =>
      have hstep : (chatStep st (ChatOp.present sender)).1 =
          { st with presenter := some sender } := by
        simp only [chatStep, requestToPresent, hpre]
      rw [hstep]
      intro p hp
      have hsp : sender = p := by simpa using hp
      subst hsp
      exact hop
    | some q =>
      cases hq : lookupStatus st.clients q with
      | none =>
        have hstep : (chatStep st (ChatOp.present sender)).1 =
            { st with presenter := some sender } := by
          simp only [chatStep, requestToPresent, hpre, hq]
        rw [hstep]
        intro p hp
        have hsp : sender = p := by simpa using hp
        subst hsp
        exact hop
      | some sq =>
        have hstep : (chatStep st (ChatOp.present sender)).1 = st := by
          simp only [chatStep, requestToPresent, hpre, hq]
        rw [hstep]; exact hinv
  | response sender r q =>
    by_cases hpre : st.presenter ≠ some sender
    · have hstep : (chatStep st (ChatOp.response sender r q)).1 = st := by
        simp only [chatStep, presentResponse, if_pos hpre]
      rw [hstep]; exact hinv
    · cases hq : lookupStatus st.clients q with
      | none =>
        have hstep : (chatStep st (ChatOp.response sender r q)).1 = st := by
          simp only [chatStep, presentResponse, if_neg hpre, hq]
        rw [hstep]; exact hinv
      | some sq =>
        by_cases hr : r = "Yes"
        · have hstep : (chatStep st (ChatOp.response sender r q)).1 =
              { st with presenter := some q } := by
            simp only [chatStep, presentResponse, if_neg hpre, hq, if_pos hr]
          rw [hstep]
          intro p hp
          have hqp : q = p := by simpa using hp
          subst hqp
          simp [hq]
        · have hstep : (chatStep st (ChatOp.response sender r q)).1 = st := by
            simp only [chatStep, presentResponse, if_neg hpre, hq, if_neg hr]
          rw [hstep]; exact hinv
  | stop sender =>
    by_cases hpre : st.presenter = some sender
    · have hstep : (chatStep st (ChatOp.stop sender)).1 =
          { st with presenter := none } := by
        simp only [chatStep, stopSharing, if_pos hpre]
      rw [hstep]
      intro p hp
      simp at hp
    · have hstep : (chatStep st (ChatOp.stop sender)).1 = st := by
        simp only [chatStep, stopSharing, if_neg hpre]
      rw [hstep]; exact hinv
  | leave sender =>
    by_cases hpre : st.presenter = some sender
    · have hstep : (chatStep st (ChatOp.leave sender)).1 =
          ⟨st.clients.filter fun e => decide (e.1 ≠ sender), none⟩ := by
        simp [chatStep, teardown, hpre]
      rw [hstep]
      intro p hp
      simp at hp
    · have hstep : (chatStep st (ChatOp.leave sender)).1 =
          ⟨st.clients.filter fun e => decide (e.1 ≠ sender), st.presenter⟩ := by
        simp [chatStep, teardown, hpre]
      rw [hstep]
      intro p hp
      have hp' : st.presenter = some p := hp
      have hps : p ≠ sender := fun he => hpre (he ▸ hp')
      exact lookupStatus_filter_ne_none hps (hinv p hp')

/-- C4 witness: with alice registered and presenting, her STOP_SHARING keeps
the invariant. -/
theorem chatStep_preserves_presenterRegistered_witness :
    presenterRegistered ((chatStep ⟨[("alice", "Online")], some "alice"⟩
      (ChatOp.stop "alice")).1) :=
  chatStep_preserves_presenterRegistered ⟨[("alice", "Online")], some "alice"⟩
    (ChatOp.stop "alice")
    (fun p hp => by
      have hap : "alice" = p := by simpa using hp
      subst hap
      decide)
    (show lookupStatus [("alice", "Online")] "alice" ≠ none by decide)

theorem keys_updateStatus (l : Clients) (sender ns : String) :
    (updateStatus l sender ns).map Prod.fst = l.map Prod.fst := by
  simp only [updateStatus, List.map_map]
  congr 1
  funext e
  by_cases h : e.1 = sender <;> simp [h]

theorem chatStep_keys_nodup (st : ChatState) (op : ChatOp)
    (hnd : (st.clients.map Prod.fst).Nodup) :
    (((chatStep st op).1.clients).map Prod.fst).Nodup := by
  cases op with
  | join raw =>
    by_cases h1 : raw = ""
    · simpa [chatStep, handshake, h1] using hnd
    · by_cases h2 : raw = "" ∨ lookupStatus st.clients raw ≠ none
      · obtain ⟨s, hs⟩ := Option.ne_none_iff_exists'.mp (h2.resolve_left h1)
        simpa [chatStep, handshake, h1, hs] using hnd
      · have hraw : raw ∉ st.clients.map Prod.fst := by
          intro hmem
          obtain ⟨e, he, hfst⟩ := List.mem_map.mp hmem
          have : lookupStatus st.clients raw ≠ none :=
            lookupStatus_ne_none_iff.mpr ⟨e.2, by rw [← hfst]; exact he⟩
          exact h2 (Or.inr this)
        have hstep : (chatStep st (ChatOp.join raw)).1 =
            { st with clients := st.clients ++ [(raw, "Online")] } := by
          simp only [chatStep, handshake, if_neg h1, if_neg h2]
        rw [hstep]
        simp only [List.map_append]
        simp [List.nodup_append, hnd, hraw]
  | status sender s =>
    have hstep : (chatStep st (ChatOp.status sender s)).1.clients =
        updateStatus st.clients sender
          (if s = "Online" ∨ s = "Away" then s else "Online") := rfl
    rw [hstep, keys_updateStatus]
    exact hnd
  | present sender =>
    have : (chatStep st (ChatOp.present sender)).1.clients = st.clients := by
      cases hpre : st.presenter with
      | none => simp [chatStep, requestToPresent, hpre]
      | some q =>
        cases hq : lookupStatus st.clients q with
        | none => simp [chatStep, requestToPresent, hpre, hq]
        | some sq => simp [chatStep, requestToPresent, hpre, hq]
    rw [this]; exact hnd
  | response sender r q =>
    have : (chatStep st (ChatOp.response sender r q)).1.clients = st.clients := by
      by_cases hpre : st.presenter ≠ some sender
      · simp [chatStep, presentResponse, hpre]
      · cases hq : lookupStatus st.clients q with
        | none => simp [chatStep, presentResponse, hpre, hq]
        | some sq =>
          by_cases hr : r = "Yes"
          · simp [chatStep, presentResponse, hpre, hq, hr]
          · simp [chatStep, presentResponse, hpre, hq, hr]
    rw [this]; exact hnd
  | stop sender =>
    have : (chatStep st (ChatOp.stop sender)).1.clients = st.clients := by
      by_cases hpre : st.presenter = some sender
      · simp [chatStep, stopSharing, hpre]
      · simp [chatStep, stopSharing, hpre]
    rw [this]; exact hnd
  | leave sender =>
    have : (chatStep st (ChatOp.leave sender)).1.clients =
        st.clients.filter fun e => decide (e.1 ≠ sender) := by
      simp [chatStep, teardown]
    rw [this]
    exact hnd.sublist (List.Sublist.map Prod.fst (List.filter_sublist st.clients))

theorem applyChatOps_keys_nodup (ops : List ChatOp) :
    (((applyChatOps ops).clients).map Prod.fst).Nodup := by
  suffices h : ∀ st : ChatState, (st.clients.map Prod.fst).Nodup →
      (((ops.foldl (fun st op => (chatStep st op).1) st).clients).map Prod.fst).Nodup by
    exact h ⟨[], none⟩ (by simp)
  induction ops with
  | nil => intro st hst; simpa using hst
  | cons op rest ih =>
    intro st hst
    exact ih _ (chatStep_keys_nodup st op hst)

theorem mem_iff_lookupStatus {l : Clients} (hnd : (l.map Prod.fst).Nodup)
    {n s : String} : (n, s) ∈ l ↔ lookupStatus l n = some s := by
  induction l with
  | nil => simp [lookupStatus]
  | cons e rest ih =>
    simp only [List.map_cons, List.nodup_cons] at hnd
    constructor
    · intro hmem
      rcases List.mem_cons.mp hmem with h | h
      · rw [← h]
        simp [lookupStatus]
      · have hne : e.1 ≠ n := by
          intro heq
          exact hnd.1 (heq ▸ List.mem_map.mpr ⟨(n, s), h, rfl⟩)
        simp only [lookupStatus, if_neg hne]
        exact (ih hnd.2).mp h
    · intro hl
      by_cases hne : e.1 = n
      · simp only [lookupStatus, if_pos hne, Option.some.injEq] at hl
        exact List.mem_cons.mpr (Or.inl (by rw [← hne, ← hl]))
      · simp only [lookupStatus, if_neg hne] at hl
        exact List.mem_cons.mpr (Or.inr ((ih hnd.2).mpr hl))

/-- Lexicographic order on character lists by code point, used to state the
spec's sorted-by-username roster. -/
def leChars : List Char → List Char → Bool
  | [], _ => true
  | _ :: _, [] => false
  | a :: as, b :: bs =>
    if a.toNat < b.toNat then true
    else if b.toNat < a.toNat then false
    else leChars as bs

/-- Modelled from the spec's words for the Snapshot operation: the roster
string built from the session list sorted by username (insertion sort). -/
def insertByName (e : String × String) : Clients → Clients
  | [] => [e]
  | f :: rest =>
    if leChars e.1.data f.1.data then e :: f :: rest else f :: insertByName e rest

/-- Modelled from the spec's words: name-sorted session list. -/
def sortByName (l : Clients) : Clients := l.foldr insertByName []

/-- Modelled from the spec's words: `Snapshot()` as an ordered-by-name roster
string. -/
def userListSortedSpec (clients : Clients) : String :=
  if clients.isEmpty then "USER_LIST:"
  else "USER_LIST:" ++ String.intercalate ","
    ((sortByName clients).map fun e => e.1 ++ "=" ++ e.2)

/-- C3 counterexample: registering bob then alice yields the roster string in
registration order, which differs from the name-sorted roster the claim
describes. -/
theorem userListString_not_sorted :
    userListString (applyChatOps [ChatOp.join "bob", ChatOp.join "alice"]).clients =
        "USER_LIST:bob=Online,alice=Online" ∧
      userListSortedSpec (applyChatOps [ChatOp.join "bob", ChatOp.join "alice"]).clients =
        "USER_LIST:alice=Online,bob=Online" ∧
      userListString (applyChatOps [ChatOp.join "bob", ChatOp.join "alice"]).clients ≠
        userListSortedSpec
          (applyChatOps [ChatOp.join "bob", ChatOp.join "alice"]).clients := by
  refine ⟨?_, ?_, ?_⟩ <;> decide

/-- C3 amended: after any sequence of chat operations the USER_LIST string
lists exactly the currently-registered usernames with their statuses — each
username at most once, entry membership coinciding with registry lookup — but
in registration (insertion) order rather than sorted by username. -/
theorem userListString_roster (ops : List ChatOp) :
    ((applyChatOps ops).clients.map Prod.fst).Nodup ∧
    (∀ n s, (n, s) ∈ (applyChatOps ops).clients ↔
      lookupStatus (applyChatOps ops).clients n = some s) ∧
    userListString (applyChatOps ops).clients =
      "USER_LIST:" ++ String.intercalate ","
        ((applyChatOps ops).clients.map fun e => e.1 ++ "=" ++ e.2) := by
  refine ⟨applyChatOps_keys_nodup ops, ?_, ?_⟩
  · intro n s
    exact mem_iff_lookupStatus (applyChatOps_keys_nodup ops)
  · unfold userListString
    by_cases h : (applyChatOps ops).clients.isEmpty
    · rw [if_pos h]
      rw [List.isEmpty_iff] at h
      simp [h, String.intercalate]
    · rw [if_neg h]

/-- C8 counterexample: a handshake whose received username bytes are empty is
closed silently — the server sends nothing at all (server.py lines 127-129
return before the username check), not the ERROR:USERNAME_TAKEN reply the
claim requires for the empty username. -/
theorem handshake_empty_silent :
    handshake ⟨[("alice", "Online")], none⟩ "" =
      (⟨[("alice", "Online")], none⟩, []) := by
  decide

/-- C8 amended: a handshake with empty received bytes is closed silently with
no reply and an unchanged state; a handshake whose (necessarily nonempty)
username is already registered replies exactly ERROR:USERNAME_TAKEN, is
closed, and leaves the state unchanged. -/
theorem handshake_reject (st : ChatState) (raw : String) :
    (raw = "" → handshake st raw = (st, [])) ∧
    (raw ≠ "" → lookupStatus st.clients raw ≠ none →
      handshake st raw = (st, [(raw, "ERROR:USERNAME_TAKEN")])) := by
  constructor
  · intro h; simp [handshake, h]
  · intro h1 h2
    obtain ⟨s, hs⟩ := Option.ne_none_iff_exists'.mp h2
    simp [handshake, h1, hs]

/-- C8 witness: alice is registered, so a second handshake as alice is
rejected with ERROR:USERNAME_TAKEN and the registry is unchanged. -/
theorem handshake_reject_witness :
    handshake ⟨[("alice", "Online")], none⟩ "alice" =
      (⟨[("alice", "Online")], none⟩, [("alice", "ERROR:USERNAME_TAKEN")]) :=
  (handshake_reject ⟨[("alice", "Online")], none⟩ "alice").2 (by decide) (by decide)

theorem updateStatus_of_unregistered {l : Clients} {sender ns : String}
    (h : lookupStatus l sender = none) : updateStatus l sender ns = l := by
  induction l with
  | nil => rfl
  | cons e rest ih =>
    by_cases he : e.1 = sender
    · simp [lookupStatus, he] at h
    · simp only [lookupStatus, if_neg he] at h
      simp [updateStatus, he] at ih ⊢
      exact ih h

theorem lookupStatus_updateStatus (l : Clients) (sender ns n : String) :
    lookupStatus (updateStatus l sender ns) n =
      if n = sender then Option.map (fun _ => ns) (lookupStatus l n)
      else lookupStatus l n := by
  induction l with
  | nil => by_cases hs : n = sender <;> simp [updateStatus, lookupStatus, hs]
  | cons e rest ih =>
    by_cases he : e.1 = n
    · by_cases hs : n = sender
      · have hes : e.1 = sender := he.trans hs
        simp [updateStatus, lookupStatus, he, hs, hes]
      · have hes : e.1 ≠ sender := fun h => hs (he.symm.trans h)
        simp [updateStatus, lookupStatus, he, hs, hes]
    · by_cases hes : e.1 = sender
      · simp only [updateStatus, List.map_cons, if_pos hes] at ih ⊢
        rw [lookupStatus, lookupStatus, if_neg he, if_neg he, ih]
      · simp only [updateStatus, List.map_cons, if_neg hes] at ih ⊢
        rw [lookupStatus, lookupStatus, if_neg he, if_neg he, ih]

/-- C9 counterexample: bob is not a registered session, yet his SET_STATUS
still triggers a STATUS_UPDATE broadcast to alice (server.py line 186 runs
outside the `if username in chat_clients` check), contradicting the claim that
no STATUS_UPDATE broadcast is sent in the failing case. -/
theorem setStatus_unregistered_broadcasts :
    lookupStatus [("alice", "Online")] "bob" = none ∧
    (setStatus ⟨[("alice", "Online")], none⟩ "bob" "Away").2 =
      [("alice", "STATUS_UPDATE:bob=Away")] := by
  decide

/-- C9 amended: SET_STATUS coerces any status outside Online/Away to Online;
an unregistered sender changes no session's status, while a registered sender's
status becomes the coerced value; in both cases STATUS_UPDATE:<user>=<coerced>
is broadcast to every other registered session and never to the sender — the
broadcast is not suppressed for an unregistered sender. -/
theorem setStatus_spec (st : ChatState) (sender rawStatus : String) :
    (lookupStatus st.clients sender = none →
      (setStatus st sender rawStatus).1 = st) ∧
    (∀ n, n ≠ sender →
      lookupStatus (setStatus st sender rawStatus).1.clients n =
        lookupStatus st.clients n) ∧
    (lookupStatus st.clients sender ≠ none →
      lookupStatus (setStatus st sender rawStatus).1.clients sender =
        some (if rawStatus = "Online" ∨ rawStatus = "Away" then rawStatus
          else "Online")) ∧
    (∀ v, lookupStatus st.clients v ≠ none → v ≠ sender →
      (v, "STATUS_UPDATE:" ++ sender ++ "=" ++
          (if rawStatus = "Online" ∨ rawStatus = "Away" then rawStatus
            else "Online"))
        ∈ (setStatus st sender rawStatus).2) ∧
    (∀ m, (sender, m) ∉ (setStatus st sender rawStatus).2) := by
  refine ⟨?_, ?_, ?_, ?_, ?_⟩
  · intro h
    show ChatState.mk (updateStatus st.clients sender
        (if rawStatus = "Online" ∨ rawStatus = "Away" then rawStatus else "Online"))
      st.presenter = st
    rw [updateStatus_of_unregistered h]
  · intro n hn
    have : (setStatus st sender rawStatus).1.clients = updateStatus st.clients sender
        (if rawStatus = "Online" ∨ rawStatus = "Away" then rawStatus
          else "Online") := rfl
    rw [this, lookupStatus_updateStatus, if_neg hn]
  · intro h
    obtain ⟨s, hs⟩ := Option.ne_none_iff_exists'.mp h
    have : (setStatus st sender rawStatus).1.clients = updateStatus st.clients sender
        (if rawStatus = "Online" ∨ rawStatus = "Away" then rawStatus
          else "Online") := rfl
    rw [this, lookupStatus_updateStatus, if_pos rfl, hs, Option.map_some']
  · intro v hv hvs
    exact mem_broadcastChat.mpr
      ⟨rfl, lookupStatus_ne_none_iff.mp (lookupStatus_updateStatus_ne_none hv),
        by simpa using hvs⟩
  · intro m hm
    have := (mem_broadcastChat.mp hm).2.2
    simp at this

/-- C9 witness: bob (registered) sends the out-of-domain status Busy; alice
receives STATUS_UPDATE with the status coerced by the Online/Away check. -/
theorem setStatus_spec_witness :
    ("alice", "STATUS_UPDATE:" ++ "bob" ++ "=" ++
        (if "Busy" = "Online" ∨ "Busy" = "Away" then "Busy" else "Online")) ∈
      (setStatus ⟨[("alice", "Online"), ("bob", "Online")], none⟩ "bob" "Busy").2 :=
  (setStatus_spec ⟨[("alice", "Online"), ("bob", "Online")], none⟩ "bob" "Busy").2.2.2.1
    "alice" (by decide) (by decide)

/-- Screen-share relay state: the held presenter socket and the viewer list
(server.py lines 403-404); connections are identified by numeric ids. -/
structure ScreenState where
  presenterConn : Option Nat
  viewers : List Nat
deriving DecidableEq

/-- The PRESENTER role handshake on the screen port (server.py lines 436-446):
returns the new state, the replies sent to this connection, and whether the
connection was accepted (false means the server closed it). -/
def screenPresenterHandshake (st : ScreenState) (conn : Nat) :
    ScreenState × List String × Bool :=
  match st.presenterConn with
  | none => ({ st with presenterConn := some conn }, [], true)
  | some _ => (st, ["ERROR: Presenter busy"], false)

/-- C5: if a presenter connection is already held, a new PRESENTER handshake
receives exactly "ERROR: Presenter busy" and is closed, with the held
presenter connection and the viewer set unchanged; if none is held, this
connection becomes the presenter and the viewer set is unchanged. -/
theorem screenPresenterHandshake_spec (st : ScreenState) (conn : Nat) :
    (∀ p, st.presenterConn = some p →
      screenPresenterHandshake st conn = (st, ["ERROR: Presenter busy"], false)) ∧
    (st.presenterConn = none →
      screenPresenterHandshake st conn = (⟨some conn, st.viewers⟩, [], true)) := by
  constructor
  · intro p hp; simp [screenPresenterHandshake, hp]
  · intro hp; simp [screenPresenterHandshake, hp]

/-- C5 witness: with connection 1 presenting and viewers 5 and 6, connection
2's PRESENTER handshake is refused and the state survives unchanged. -/
theorem screenPresenterHandshake_spec_witness :
    screenPresenterHandshake ⟨some 1, [5, 6]⟩ 2 =
      (⟨some 1, [5, 6]⟩, ["ERROR: Presenter busy"], false) :=
  (screenPresenterHandshake_spec ⟨some 1, [5, 6]⟩ 2).1 1 rfl

/-- Characters accumulated by posixpath.basename: keep everything after the
most recent '/'. -/
def basenameChars (cs : List Char) : List Char :=
  cs.foldl (fun acc c => if c = '/' then [] else acc ++ [c]) []

/-- os.path.basename as used to sanitize client-supplied filenames
(server.py lines 626, 684, 724); the server runs posixpath semantics. -/
def basename (s : String) : String := ⟨basenameChars s.data⟩

/-- Helper for splitext: split the character list at its last dot, if any. -/
def splitAtLastDot : List Char → Option (List Char × List Char)
  | [] => none
  | c :: rest =>
    match splitAtLastDot rest with
    | some be => some (c :: be.1, be.2)
    | none => if c = '.' then some ([], '.' :: rest) else none

/-- posixpath.splitext on a slash-free name (server.py line 634 applies it to
the joined path FILE_DIR/<name>; FILE_DIR contains no dot, so only the name
part matters): the extension starts at the last dot unless every character
before that dot is itself a dot. -/
def splitext (s : String) : String × String :=
  match splitAtLastDot s.data with
  | none => (s, "")
  | some be =>
    if be.1.any (fun c => decide (c ≠ '.')) then (⟨be.1⟩, ⟨be.2⟩) else (s, "")

/-- os.path.exists inside the storage directory for a slash-free name: the
regular files fs (as scanned by update_file_list) plus the two directory
entries that always exist, "." (the storage directory itself) and ".." (its
parent). -/
abbrev pathExists (fs : List String) (name : String) : Prop :=
  name ∈ fs ∨ name = "." ∨ name = ".."

/-- The collision candidate built on server.py line 636. -/
def uploadCand (base ext : String) (count : Nat) : String :=
  base ++ "_" ++ Nat.repr count ++ ext

/-- The upload rename loop (server.py lines 633-638): from count upward,
return the first candidate name whose path does not exist.  The Python loop is
unbounded; the fuel argument only bounds the recursion, and findFreePath_spec
below shows the fuel supplied by resolveUploadName is never exhausted. -/
def findFreePath (fs : List String) (base ext : String) : Nat → Nat → String
  | 0, count => uploadCand base ext count
  | fuel + 1, count =>
    if pathExists fs (uploadCand base ext count) then
      findFreePath fs base ext fuel (count + 1)
    else uploadCand base ext count

/-- The stored-name computation for an UPLOAD (server.py lines 631-638): keep
the sanitized name if its path does not exist, else append _1, _2, ... before
the extension until a free name is found. -/
def resolveUploadName (fs : List String) (filename : String) : String :=
  if pathExists fs filename then
    findFreePath fs (splitext filename).1 (splitext filename).2 (fs.length + 1) 1
  else filename

/-- UPLOAD target resolution (server.py lines 619-638): sanitize to the base
name, reject empty, resolve collisions; the returned name, inside the storage
directory, is where the uploaded bytes are written. -/
def uploadTarget (fs : List String) (filenameRaw : String) : Option String :=
  if basename filenameRaw = "" then none
  else some (resolveUploadName fs (basename filenameRaw))

/-- DOWNLOAD target resolution (server.py lines 681-690): sanitize to the base
name, reject empty, and serve only an existing regular file of the storage
directory. -/
def downloadTarget (fs : List String) (filenameRaw : String) : Option String :=
  if basename filenameRaw = "" then none
  else if pathExists fs (basename filenameRaw) ∧ basename filenameRaw ∈ fs then
    some (basename filenameRaw)
  else none

/-- DELETE target resolution (server.py lines 721-731): same sanitization and
regular-file guard as DOWNLOAD. -/
def deleteTarget (fs : List String) (filenameRaw : String) : Option String :=
  if basename filenameRaw = "" then none
  else if pathExists fs (basename filenameRaw) ∧ basename filenameRaw ∈ fs then
    some (basename filenameRaw)
  else none

/-- No path separator occurs in the name. -/
abbrev noSlash (s : String) : Prop := ('/' : Char) ∉ s.data

/-- A nonempty slash-free name other than "." and ".." denotes an entry inside
the storage directory once joined to it. -/
abbrev insideStorage (name : String) : Prop :=
  name ≠ "" ∧ name ≠ "." ∧ name ≠ ".." ∧ noSlash name

/-- The storage directory listing as produced by os.listdir never contains the
special entries "." and "..". -/
abbrev wfDir (fs : List String) : Prop := "." ∉ fs ∧ ".." ∉ fs

/-- Decimal reading of a character list, a left inverse of Nat.repr. -/
def parseDigitsAux (a : Nat) (cs : List Char) : Nat :=
  cs.foldl (fun acc c => acc * 10 + (c.toNat - 48)) a

theorem parseDigitsAux_append (a : Nat) (xs ys : List Char) :
    parseDigitsAux a (xs ++ ys) = parseDigitsAux (parseDigitsAux a xs) ys := by
  simp [parseDigitsAux, List.foldl_append]

theorem toDigitsCore_eq_append (fuel : Nat) :
    ∀ n ds, Nat.toDigitsCore 10 fuel n ds = Nat.toDigitsCore 10 fuel n [] ++ ds := by
  induction fuel with
  | zero => intro n ds; simp [Nat.toDigitsCore]
  | succ fuel ih =>
    intro n ds
    simp only [Nat.toDigitsCore]
    by_cases h : n / 10 = 0
    · simp [h]
    · rw [if_neg h, if_neg h, ih (n / 10) (Nat.digitChar (n % 10) :: ds),
        ih (n / 10) [Nat.digitChar (n % 10)]]
      simp

theorem digitChar_toNat : ∀ m, m < 10 → (Nat.digitChar m).toNat = 48 + m := by decide

theorem parseDigitsAux_toDigitsCore (fuel : Nat) :
    ∀ n a, n < 10 ^ fuel →
      parseDigitsAux a (Nat.toDigitsCore 10 fuel n []) =
        a * 10 ^ (Nat.toDigitsCore 10 fuel n []).length + n := by
  induction fuel with
  | zero =>
    intro n a hn
    have hn0 : n = 0 := by simpa using hn
    subst hn0
    simp [Nat.toDigitsCore, parseDigitsAux]
  | succ fuel ih =>
    intro n a hn
    have hmod : n % 10 < 10 := Nat.mod_lt n (by norm_num)
    have hd := digitChar_toNat (n % 10) hmod
    simp only [Nat.toDigitsCore]
    by_cases h : n / 10 = 0
    · rw [if_pos h]
      have hn10 : n < 10 := by omega
      simp only [parseDigitsAux, List.foldl_cons, List.foldl_nil, List.length_cons,
        List.length_nil, Nat.zero_add, hd]
      have hmn : n % 10 = n := Nat.mod_eq_of_lt hn10
      rw [hmn]
      have hp : (10 : Nat) ^ 1 = 10 := by norm_num
      rw [hp]
      omega
    · rw [if_neg h, toDigitsCore_eq_append]
      have hdiv : n / 10 < 10 ^ fuel := by
        have h10 : (0 : Nat) < 10 := by norm_num
        rw [Nat.div_lt_iff_lt_mul h10]
        calc n < 10 ^ (fuel + 1) := hn
          _ = 10 ^ fuel * 10 := by ring
      rw [parseDigitsAux_append, ih (n / 10) a hdiv, List.length_append]
      simp only [parseDigitsAux, List.foldl_cons, List.foldl_nil, List.length_cons,
        List.length_nil, Nat.zero_add, hd]
      have hsub : 48 + n % 10 - 48 = n % 10 := by omega
      rw [hsub]
      calc (a * 10 ^ (Nat.toDigitsCore 10 fuel (n / 10) []).length + n / 10) * 10 + n % 10
          = a * (10 ^ (Nat.toDigitsCore 10 fuel (n / 10) []).length * 10) +
            (10 * (n / 10) + n % 10) := by ring
        _ = a * 10 ^ ((Nat.toDigitsCore 10 fuel (n / 10) []).length + 1) + n := by
            rw [Nat.div_add_mod, ← pow_succ]

theorem parseDigitsAux_repr (n : Nat) : parseDigitsAux 0 (Nat.repr n).data = n := by
  have hlt : n < 10 ^ (n + 1) := by
    calc n < 10 ^ n := Nat.lt_pow_self (by norm_num) n
      _ ≤ 10 ^ (n + 1) := Nat.pow_le_pow_right (by norm_num) (Nat.le_succ n)
  have hdata : (Nat.repr n).data = Nat.toDigitsCore 10 (n + 1) n [] := rfl
  rw [hdata, parseDigitsAux_toDigitsCore (n + 1) n 0 hlt]
  simp

theorem natRepr_inj {m n : Nat} (h : (Nat.repr m).data = (Nat.repr n).data) :
    m = n := by
  have h2 := congrArg (parseDigitsAux 0) h
  rwa [parseDigitsAux_repr, parseDigitsAux_repr] at h2

theorem uploadCand_inj (base ext : String) {i j : Nat}
    (h : uploadCand base ext i = uploadCand base ext j) : i = j := by
  have hd := congrArg String.data h
  simp only [uploadCand, String.data_append, List.append_assoc] at hd
  have h1 := List.append_cancel_left hd
  have h2 := List.append_cancel_left h1
  exact natRepr_inj (List.append_cancel_right h2)

theorem mem_toDigitsCore (fuel : Nat) :
    ∀ n ds c, c ∈ Nat.toDigitsCore 10 fuel n ds →
      c ∈ ds ∨ ∃ m, m < 10 ∧ c = Nat.digitChar m := by
  induction fuel with
  | zero => intro n ds c hc; exact Or.inl hc
  | succ fuel ih =>
    intro n ds c hc
    simp only [Nat.toDigitsCore] at hc
    by_cases h : n / 10 = 0
    · rw [if_pos h] at hc
      rcases List.mem_cons.mp hc with h1 | h1
      · exact Or.inr ⟨n % 10, Nat.mod_lt n (by norm_num), h1⟩
      · exact Or.inl h1
    · rw [if_neg h] at hc
      rcases ih (n / 10) _ c hc with h1 | h1
      · rcases List.mem_cons.mp h1 with h2 | h2
        · exact Or.inr ⟨n % 10, Nat.mod_lt n (by norm_num), h2⟩
        · exact Or.inl h2
      · exact Or.inr h1

theorem repr_chars_digit {n : Nat} {c : Char} (hc : c ∈ (Nat.repr n).data) :
    ∃ m, m < 10 ∧ c = Nat.digitChar m := by
  have h2 : c ∈ Nat.toDigitsCore 10 (n + 1) n [] := hc
  rcases mem_toDigitsCore (n + 1) n [] c h2 with h | h
  · simp at h
  · exact h

theorem digitChar_ne_slash : ∀ m, m < 10 → Nat.digitChar m ≠ '/' := by decide

theorem underscore_mem_uploadCand (base ext : String) (i : Nat) :
    '_' ∈ (uploadCand base ext i).data := by
  have h1 : '_' ∈ ("_" : String).data := by decide
  simp only [uploadCand, String.data_append]
  exact List.mem_append_left _ (List.mem_append_left _ (List.mem_append_right _ h1))

theorem uploadCand_ne_special (base ext : String) (i : Nat) :
    uploadCand base ext i ≠ "." ∧ uploadCand base ext i ≠ ".." ∧
      uploadCand base ext i ≠ "" := by
  have hm := underscore_mem_uploadCand base ext i
  refine ⟨?_, ?_, ?_⟩ <;> intro h <;> rw [h] at hm <;> revert hm <;> decide

theorem noSlash_uploadCand {base ext : String} (hb : noSlash base)
    (he : noSlash ext) (i : Nat) : noSlash (uploadCand base ext i) := by
  intro hmem
  simp only [uploadCand, String.data_append, List.mem_append] at hmem
  rcases hmem with ((h | h) | h) | h
  · exact hb h
  · revert h; decide
  · obtain ⟨m, hm, hcm⟩ := repr_chars_digit h
    exact digitChar_ne_slash m hm hcm.symm
  · exact he h

theorem noSlash_basenameChars (cs : List Char) : ∀ acc, ('/' : Char) ∉ acc →
    ('/' : Char) ∉ cs.foldl (fun acc c => if c = '/' then [] else acc ++ [c]) acc := by
  induction cs with
  | nil => intro acc h; exact h
  | cons c rest ih =>
    intro acc h
    simp only [List.foldl_cons]
    by_cases hc : c = '/'
    · rw [if_pos hc]; exact ih [] (by simp)
    · rw [if_neg hc]
      refine ih (acc ++ [c]) ?_
      intro hm
      rcases List.mem_append.mp hm with h1 | h1
      · exact h h1
      · simp only [List.mem_singleton] at h1
        exact hc h1.symm

theorem noSlash_basename (s : String) : noSlash (basename s) :=
  noSlash_basenameChars s.data [] (by simp)

theorem splitAtLastDot_append : ∀ cs b e,
    splitAtLastDot cs = some (b, e) → b ++ e = cs := by
  intro cs
  induction cs with
  | nil => intro b e h; simp [splitAtLastDot] at h
  | cons c rest ih =>
    intro b e h
    simp only [splitAtLastDot] at h
    cases hr : splitAtLastDot rest with
    | some be =>
      rw [hr] at h
      simp only [Option.some.injEq, Prod.mk.injEq] at h
      obtain ⟨hb, he⟩ := h
      rw [← hb, ← he]
      have := ih be.1 be.2 (by rw [hr])
      simp [this]
    | none =>
      rw [hr] at h
      by_cases hc : c = '.'
      · rw [if_pos hc] at h
        simp only [Option.some.injEq, Prod.mk.injEq] at h
        obtain ⟨hb, he⟩ := h
        rw [← hb, ← he, hc]
        simp
      · rw [if_neg hc] at h
        simp at h

theorem splitext_data (s : String) :
    (splitext s).1.data ++ (splitext s).2.data = s.data := by
  cases h : splitAtLastDot s.data with
  | none => simp [splitext, h]
  | some be =>
    by_cases ha : (be.1.any fun c => decide (c ≠ '.')) = true
    · have hs : splitext s = (⟨be.1⟩, ⟨be.2⟩) := by
        simp only [List.any_eq_true, decide_eq_true_eq] at ha
        obtain ⟨x, hx, hxne⟩ := ha
        simp [splitext, h]
        intro hall
        exact absurd (hall x hx) hxne
      rw [hs]
      exact splitAtLastDot_append s.data be.1 be.2 (by rw [h])
    · have hs : splitext s = (s, "") := by
        simp only [List.any_eq_true, decide_eq_true_eq] at ha
        push_neg at ha
        simp [splitext, h]
        intro x hx hxne
        exact absurd (ha x hx) hxne
      rw [hs]
      simp

theorem noSlash_splitext {s : String} (hs : noSlash s) :
    noSlash (splitext s).1 ∧ noSlash (splitext s).2 := by
  constructor
  · intro hm
    apply hs
    rw [← splitext_data s]
    exact List.mem_append_left _ hm
  · intro hm
    apply hs
    rw [← splitext_data s]
    exact List.mem_append_right _ hm

theorem findFreePath_spec (fs : List String) (base ext : String) :
    ∀ fuel count,
      (∃ i, count ≤ i ∧ i < count + fuel ∧ ¬ pathExists fs (uploadCand base ext i)) →
      ∃ k, count ≤ k ∧ ¬ pathExists fs (uploadCand base ext k) ∧
        (∀ j, count ≤ j → j < k → pathExists fs (uploadCand base ext j)) ∧
        findFreePath fs base ext fuel count = uploadCand base ext k := by
  intro fuel
  induction fuel with
  | zero =>
    rintro count ⟨i, h1, h2, _⟩
    omega
  | succ fuel ih =>
    rintro count ⟨i, h1, h2, hfree⟩
    by_cases hc : pathExists fs (uploadCand base ext count)
    · have hic : i ≠ count := fun he => hfree (he ▸ hc)
      obtain ⟨k, hk1, hk2, hk3, hk4⟩ :=
        ih (count + 1) ⟨i, by omega, by omega, hfree⟩
      refine ⟨k, by omega, hk2, ?_, ?_⟩
      · intro j hj1 hj2
        rcases Nat.eq_or_lt_of_le hj1 with he | hlt
        · rw [← he]; exact hc
        · exact hk3 j hlt hj2
      · simp only [findFreePath, if_pos hc]
        exact hk4
    · exact ⟨count, Nat.le_refl _, hc,
        fun j hj1 hj2 => absurd (Nat.lt_of_le_of_lt hj1 hj2) (Nat.lt_irrefl _),
        by simp only [findFreePath, if_neg hc]⟩

theorem exists_free_uploadCand (fs : List String) (base ext : String) :
    ∃ i, 1 ≤ i ∧ i < 1 + (fs.length + 1) ∧
      ¬ pathExists fs (uploadCand base ext i) := by
  by_contra hall
  push_neg at hall
  have hmem : ∀ i, 1 ≤ i → i < fs.length + 2 → uploadCand base ext i ∈ fs := by
    intro i h1 h2
    rcases hall i h1 (by omega) with h | h | h
    · exact h
    · exact absurd h (uploadCand_ne_special base ext i).1
    · exact absurd h (uploadCand_ne_special base ext i).2.1
  have hinj : Function.Injective fun i : Nat => uploadCand base ext (i + 1) := by
    intro a b hab
    have h2 := uploadCand_inj base ext hab
    omega
  have hsub : (Finset.range (fs.length + 1)).image
      (fun i => uploadCand base ext (i + 1)) ⊆ fs.toFinset := by
    intro x hx
    simp only [Finset.mem_image, Finset.mem_range] at hx
    obtain ⟨i, hi, hx⟩ := hx
    rw [List.mem_toFinset, ← hx]
    exact hmem (i + 1) (by omega) (by omega)
  have hcard := Finset.card_le_card hsub
  rw [Finset.card_image_of_injective _ hinj, Finset.card_range] at hcard
  have hfin := fs.toFinset_card_le
  omega

theorem resolveUploadName_not_exists (fs : List String) (filename : String) :
    ¬ pathExists fs (resolveUploadName fs filename) := by
  unfold resolveUploadName
  by_cases h : pathExists fs filename
  · rw [if_pos h]
    obtain ⟨k, _, hk2, _, hk4⟩ := findFreePath_spec fs (splitext filename).1
      (splitext filename).2 (fs.length + 1) 1
      (exists_free_uploadCand fs (splitext filename).1 (splitext filename).2)
    rw [hk4]
    exact hk2
  · rw [if_neg h]
    exact h

theorem resolveUploadName_cases (fs : List String) (b : String) :
    resolveUploadName fs b = b ∨
      ∃ k, resolveUploadName fs b = uploadCand (splitext b).1 (splitext b).2 k := by
  unfold resolveUploadName
  by_cases h : pathExists fs b
  · rw [if_pos h]
    obtain ⟨k, _, _, _, hk4⟩ := findFreePath_spec fs (splitext b).1
      (splitext b).2 (fs.length + 1) 1
      (exists_free_uploadCand fs (splitext b).1 (splitext b).2)
    exact Or.inr ⟨k, hk4⟩
  · rw [if_neg h]
    exact Or.inl rfl

theorem insideStorage_resolveUploadName {fs : List String} {b : String}
    (hb : b ≠ "") (hns : noSlash b) : insideStorage (resolveUploadName fs b) := by
  rcases resolveUploadName_cases fs b with h | ⟨k, h⟩
  · have hne := resolveUploadName_not_exists fs b
    rw [h] at hne ⊢
    refine ⟨hb, ?_, ?_, hns⟩
    · intro hd; exact hne (Or.inr (Or.inl hd))
    · intro hd; exact hne (Or.inr (Or.inr hd))
  · rw [h]
    have h1 := uploadCand_ne_special (splitext b).1 (splitext b).2 k
    have h2 := noSlash_splitext hns
    exact ⟨h1.2.2, h1.1, h1.2.1, noSlash_uploadCand h2.1 h2.2 k⟩

/-- C6: an UPLOAD whose sanitized filename collides is renamed by appending
_1, _2, ... before the extension, taking the first free suffix; a
non-colliding name is kept; the stored name is never an already-listed file,
so no stored file's bytes are ever overwritten; in particular report.txt
uploaded three times is stored as report.txt, report_1.txt, report_2.txt. -/
theorem uploadRename_spec (fs : List String) (filename : String) :
    (¬ pathExists fs filename → resolveUploadName fs filename = filename) ∧
    (pathExists fs filename →
      ∃ k, 1 ≤ k ∧
        resolveUploadName fs filename =
          uploadCand (splitext filename).1 (splitext filename).2 k ∧
        ¬ pathExists fs (uploadCand (splitext filename).1 (splitext filename).2 k) ∧
        ∀ j, 1 ≤ j → j < k →
          pathExists fs (uploadCand (splitext filename).1 (splitext filename).2 j)) ∧
    resolveUploadName fs filename ∉ fs ∧
    resolveUploadName [] "report.txt" = "report.txt" ∧
    resolveUploadName ["report.txt"] "report.txt" = "report_1.txt" ∧
    resolveUploadName ["report.txt", "report_1.txt"] "report.txt" =
      "report_2.txt" := by
  refine ⟨?_, ?_, ?_, by decide, by decide, by decide⟩
  · intro h
    unfold resolveUploadName
    rw [if_neg h]
  · intro h
    obtain ⟨k, hk1, hk2, hk3, hk4⟩ := findFreePath_spec fs (splitext filename).1
      (splitext filename).2 (fs.length + 1) 1
      (exists_free_uploadCand fs (splitext filename).1 (splitext filename).2)
    refine ⟨k, hk1, ?_, hk2, hk3⟩
    unfold resolveUploadName
    rw [if_pos h]
    exact hk4
  · intro hmem
    exact resolveUploadName_not_exists fs filename (Or.inl hmem)

/-- C6 witness: with report.txt already stored, uploading report.txt again
never lands on an existing file. -/
theorem uploadRename_spec_witness :
    resolveUploadName ["report.txt"] "report.txt" ∉ ["report.txt"] :=
  (uploadRename_spec ["report.txt"] "report.txt").2.2.1

/-- C7: filename sanitization confines every file operation to the storage
directory: the sanitized name never contains a path separator, and any name an
UPLOAD writes to, or a DOWNLOAD/DELETE reads or removes, is a nonempty
slash-free name other than "." and "..", hence an entry inside the storage
directory (DOWNLOAD and DELETE additionally touch only files already listed
in the directory). -/
theorem sanitizedPaths_safe (fs : List String) (raw : String) (hwf : wfDir fs) :
    noSlash (basename raw) ∧
    (∀ n, uploadTarget fs raw = some n → insideStorage n) ∧
    (∀ n, downloadTarget fs raw = some n → insideStorage n ∧ n ∈ fs) ∧
    (∀ n, deleteTarget fs raw = some n → insideStorage n ∧ n ∈ fs) := by
  have hbs := noSlash_basename raw
  refine ⟨hbs, ?_, ?_, ?_⟩
  · intro n hn
    unfold uploadTarget at hn
    by_cases hb : basename raw = ""
    · rw [if_pos hb] at hn; exact absurd hn (by simp)
    · rw [if_neg hb] at hn
      have hn2 : n = resolveUploadName fs (basename raw) := (Option.some.inj hn).symm
      rw [hn2]
      exact insideStorage_resolveUploadName hb hbs
  · intro n hn
    unfold downloadTarget at hn
    by_cases hb : basename raw = ""
    · rw [if_pos hb] at hn; exact absurd hn (by simp)
    · rw [if_neg hb] at hn
      by_cases hex : pathExists fs (basename raw) ∧ basename raw ∈ fs
      · rw [if_pos hex] at hn
        have hn2 : n = basename raw := (Option.some.inj hn).symm
        subst hn2
        refine ⟨⟨hb, ?_, ?_, hbs⟩, hex.2⟩
        · intro hd; rw [hd] at hex; exact hwf.1 hex.2
        · intro hd; rw [hd] at hex; exact hwf.2 hex.2
      · rw [if_neg hex] at hn; exact absurd hn (by simp)
  · intro n hn
    unfold deleteTarget at hn
    by_cases hb : basename raw = ""
    · rw [if_pos hb] at hn; exact absurd hn (by simp)
    · rw [if_neg hb] at hn
      by_cases hex : pathExists fs (basename raw) ∧ basename raw ∈ fs
      · rw [if_pos hex] at hn
        have hn2 : n = basename raw := (Option.some.inj hn).symm
        subst hn2
        refine ⟨⟨hb, ?_, ?_, hbs⟩, hex.2⟩
        · intro hd; rw [hd] at hex; exact hwf.1 hex.2
        · intro hd; rw [hd] at hex; exact hwf.2 hex.2
      · rw [if_neg hex] at hn; exact absurd hn (by simp)

/-- C7 witness: a traversal attempt "../../etc/passwd" sanitizes to a
slash-free base name against a well-formed listing. -/
theorem sanitizedPaths_safe_witness :
    wfDir ["report.txt"] ∧ noSlash (basename "../../etc/passwd") :=
  ⟨⟨by decide, by decide⟩,
    (sanitizedPaths_safe ["report.txt"] "../../etc/passwd"
      ⟨by decide, by decide⟩).1⟩
